import Mathlib

/-!
Verification development for the Chemical-Equipment-Visualizer repository.

The ingestion pipeline lives in
`src/backend/chemical_equipment/equipment/views.py` (`DatasetViewSet.upload`),
with a second backend variant in `src/backend/equipment_api/api/views.py`
(`upload_csv`) whose per-user retention logic (keep the five newest
datasets, `Meta.ordering = ['-uploaded_at']` in `api/models.py`) is modelled
by `RStore` below.

Cells are modelled as they stand after `pandas.read_csv` has typed them:
a cell is either missing (`NaN`), a number, or a leftover string (a token
of a numeric column that pandas could not parse, which leaves the whole
column with `object` dtype).  Only the five required columns are modelled
per row, because the pipeline never reads any other cell.  Floating-point
values are modelled as rationals.
-/

namespace ChemViz

/-- One cell of the table after `pandas.read_csv` has typed it. -/
inductive Value where
  | null
  | str (s : String)
  | num (q : ℚ)
deriving DecidableEq, Repr

/-- Test for a missing cell (`pd.isna`): only a missing cell is `NaN`. -/
def Value.isNull : Value → Bool
  | .null => true
  | _ => false

/-- Numeric view of a cell: `float(x)` succeeds exactly on numbers here,
since a string cell stands for a token that was not parseable as a number. -/
def Value.toNum? : Value → Option ℚ
  | .num q => some q
  | _ => none

/-- One row of the table, restricted to the five required columns
(the pipeline reads no other cell). -/
structure Row where
  name : Value
  type : Value
  flowrate : Value
  pressure : Value
  temperature : Value
deriving DecidableEq, Repr

/-- The dataframe produced by `pd.read_csv`: its column names plus the rows'
required cells. -/
structure RawTable where
  columns : List String
  rows : List Row
deriving Repr

/-- The `required_columns` list of `DatasetViewSet.upload` (line 58). -/
def requiredColumns : List String :=
  ["Equipment Name", "Type", "Flowrate", "Pressure", "Temperature"]

/-- The missing-column computation of `DatasetViewSet.upload` (line 59):
`[col for col in required_columns if col not in df.columns]`. -/
def missingColumns (t : RawTable) : List String :=
  requiredColumns.filter (fun c => !(t.columns.contains c))

/-- Whether any required cell of the row is missing (`pd.isna`). -/
def Row.hasNull (r : Row) : Bool :=
  r.name.isNull || r.type.isNull || r.flowrate.isNull ||
    r.pressure.isNull || r.temperature.isNull

/-- The row-cleaning step `df.dropna(subset=required_columns)` (line 68). -/
def dropna (rows : List Row) : List Row :=
  rows.filter (fun r => !r.hasNull)

/-- Whether every numeric cell of the row converts with `float(...)`. -/
def Row.numericOk (r : Row) : Bool :=
  (r.flowrate.toNum?).isSome && (r.pressure.toNum?).isSome &&
    (r.temperature.toNum?).isSome

/-- Occurrences of each distinct value, in first-seen order
(the grouping step of `Series.value_counts`). -/
def countsInOrder : List Value → List (Value × Nat)
  | [] => []
  | v :: vs =>
      (v, 1 + vs.count v) :: countsInOrder (vs.filter (fun w => w ≠ v))
termination_by l => l.length
decreasing_by
  simp only [List.length_cons]
  exact Nat.lt_succ_of_le (List.length_filter_le _ _)

/-- The call `Series.value_counts().to_dict()` (line 89): occurrence counts
of the distinct values, ordered by count descending (stable, so ties keep
first-seen order); Python dicts preserve this insertion order. -/
def valueCounts (l : List Value) : List (Value × Nat) :=
  (countsInOrder l).insertionSort (fun a b => b.2 ≤ a.2)

/-- The `summary` dict computed in `DatasetViewSet.upload` (lines 84-96). -/
structure Summary where
  count : Nat
  avgFlowrate : ℚ
  avgPressure : ℚ
  avgTemperature : ℚ
  minFlowrate : ℚ
  maxFlowrate : ℚ
  minPressure : ℚ
  maxPressure : ℚ
  minTemperature : ℚ
  maxTemperature : ℚ
  typeDistribution : List (Value × Nat)
deriving DecidableEq, Repr

/-- Arithmetic mean of an all-numeric column (`Series.mean()`). -/
def meanQ (l : List ℚ) : ℚ := l.sum / l.length

/-- Linear-scan minimum of a column (`Series.min()`). -/
def minQ : List ℚ → ℚ
  | [] => 0
  | x :: xs => xs.foldl min x

/-- Linear-scan maximum of a column (`Series.max()`). -/
def maxQ : List ℚ → ℚ
  | [] => 0
  | x :: xs => xs.foldl max x

/-- The numeric view of one column over the cleaned rows: `some` exactly
when every cell is a number; otherwise the column has `object` dtype holding
a string, and `mean`/`float` raise. -/
def numsOf (rows : List Row) (f : Row → Value) : Option (List ℚ) :=
  match rows with
  | [] => some []
  | r :: rs => do
      let q ← (f r).toNum?
      let qs ← numsOf rs f
      pure (q :: qs)

/-- Lines 84-96 of `DatasetViewSet.upload`: compute the summary statistics
over the cleaned rows; `none` models the `TypeError` raised by
`mean`/`min`/`max` when a numeric column still holds an unparseable string. -/
def computeSummary (rows : List Row) : Option Summary := do
  let fl ← numsOf rows Row.flowrate
  let pr ← numsOf rows Row.pressure
  let te ← numsOf rows Row.temperature
  pure {
    count := rows.length
    avgFlowrate := meanQ fl
    avgPressure := meanQ pr
    avgTemperature := meanQ te
    minFlowrate := minQ fl
    maxFlowrate := maxQ fl
    minPressure := minQ pr
    maxPressure := maxQ pr
    minTemperature := minQ te
    maxTemperature := maxQ te
    typeDistribution := valueCounts (rows.map Row.type) }

/-- One `Equipment` model row (lines 104-111). -/
structure EquipmentRecord where
  equipmentName : Value
  equipmentType : Value
  flowrate : ℚ
  pressure : ℚ
  temperature : ℚ
deriving DecidableEq, Repr

/-- The `equipment_list` loop (lines 101-113): `float(row[...])` raises on a
string cell, modelled by `none`. -/
def mkRecords : List Row → Option (List EquipmentRecord)
  | [] => some []
  | r :: rs => do
      let f ← r.flowrate.toNum?
      let p ← r.pressure.toNum?
      let t ← r.temperature.toNum?
      let rest ← mkRecords rs
      pure (⟨r.name, r.type, f, p, t⟩ :: rest)

/-- The `Dataset` model as the pipeline populates it: created first with
only `filename` and `total_records`, the summary and equipment records
attached afterwards. -/
structure Dataset where
  filename : String
  totalRecords : Nat
  summary : Option Summary
  records : List EquipmentRecord
deriving DecidableEq, Repr

/-- The filename test `csv_file.name.endswith('.csv')` (line 47), as a
suffix test on the filename's character sequence. -/
def endsWithCsv (filename : String) : Bool :=
  ".csv".data.isSuffixOf filename.data

/-- The error responses `DatasetViewSet.upload` can return. -/
inductive UploadError where
  | notCsv
  | missingCols (cols : List String)
  | noValidData
  | processingError
deriving DecidableEq, Repr

/-- Retention bound: both backends keep the five newest datasets
(`MAX_HISTORY = 5`). -/
def MAX_HISTORY : Nat := 5

/-- The dataset just after `Dataset.objects.create` (line 77): no summary,
no equipment records yet. -/
def strandedDataset (filename : String) (t : RawTable) : Dataset :=
  { filename := filename
    totalRecords := (dropna t.rows).length
    summary := none
    records := [] }

/-- Lines 44-128 of `DatasetViewSet.upload`.  The store is the history list,
newest first (per the spec's History model, dataset order is upload time
descending, and upload times increase with insertion).
`Dataset.objects.create` commits immediately, so a later exception (caught
at line 124) leaves the partially created dataset in the store, and eviction
(`all()[5:]` deleted) only runs on the success path. -/
def upload (filename : String) (t : RawTable) (s : List Dataset) :
    Except UploadError Dataset × List Dataset :=
  if ¬ endsWithCsv filename then (.error .notCsv, s)
  else
    let miss := missingColumns t
    if miss ≠ [] then (.error (.missingCols miss), s)
    else
      let clean := dropna t.rows
      if clean.length = 0 then (.error .noValidData, s)
      else
        let d₀ := strandedDataset filename t
        match computeSummary clean with
        | none => (.error .processingError, d₀ :: s)
        | some sum =>
            let d₁ := { d₀ with summary := some sum }
            match mkRecords clean with
            | none => (.error .processingError, d₁ :: s)
            | some recs =>
                let d₂ := { d₁ with records := recs }
                (.ok d₂, (d₂ :: s).take MAX_HISTORY)

/-- The chart series of `generate_pdf` (lines 279-284):
`types = list(type_dist.keys())`, `counts = list(type_dist.values())`,
paired up again for the bars. -/
def pdfTypeSeries (s : Summary) : List (Value × Nat) :=
  (s.typeDistribution.map Prod.fst).zip (s.typeDistribution.map Prod.snd)

/-- Errors of the retention store interface (`generate_pdf` answers 404 when
`Dataset.objects.get` raises `DoesNotExist`). -/
inductive StoreError where
  | notFound
deriving DecidableEq, Repr

/-- One owner scope's retention store in `equipment_api`: the id counter of
the autoincrement primary key and the history of dataset ids, newest first
(`Meta.ordering = ['-uploaded_at']`, upload times strictly increasing with
insertion order). -/
structure RStore where
  nextId : Nat
  history : List Nat
deriving DecidableEq, Repr

/-- The freshly created store of an owner scope with no datasets. -/
def RStore.empty : RStore := ⟨0, []⟩

/-- One insert in `upload_csv` (lines 80-97): create the dataset, then
delete every dataset beyond the five newest. -/
def RStore.insert (st : RStore) : RStore :=
  ⟨st.nextId + 1, (st.nextId :: st.history).take MAX_HISTORY⟩

/-- The `get_history` endpoint (lines 117-120): the five newest datasets. -/
def RStore.list (st : RStore) : List Nat :=
  st.history.take MAX_HISTORY

/-- Lookup `Dataset.objects.get(id=...)` in `generate_pdf`: `NotFoundError`
when the id is absent (evicted ids are indistinguishable from never-existing
ids). -/
def RStore.get (st : RStore) (i : Nat) : Except StoreError Nat :=
  if st.history.contains i then .ok i else .error .notFound

/-- Sequential inserts into one owner scope, repeated `n` times. -/
def insertN (st : RStore) : Nat → RStore
  | 0 => st
  | n + 1 => (insertN st n).insert

/-- Decidable equality for responses, so concrete runs of the pipeline can
be checked by evaluation. -/
instance {e a : Type} [DecidableEq e] [DecidableEq a] :
    DecidableEq (Except e a) := fun x y =>
  match x, y with
  | .error u, .error v =>
      if h : u = v then isTrue (by rw [h])
      else isFalse (by intro hc; cases hc; exact h rfl)
  | .error _, .ok _ => isFalse (by intro hc; cases hc)
  | .ok _, .error _ => isFalse (by intro hc; cases hc)
  | .ok u, .ok v =>
      if h : u = v then isTrue (by rw [h])
      else isFalse (by intro hc; cases hc; exact h rfl)

instance : IsTotal (Value × Nat) (fun a b => b.2 ≤ a.2) :=
  ⟨fun a b => Nat.le_total b.2 a.2⟩

instance : IsTrans (Value × Nat) (fun a b => b.2 ≤ a.2) :=
  ⟨fun _ _ _ hab hbc => Nat.le_trans hbc hab⟩

/-- The worked example of the spec: two rows
`("Pump1","Pump",10.0,5.0,300.0)` and `("Valve1","Valve",20.0,7.0,310.0)`. -/
def exRows : List Row :=
  [⟨.str "Pump1", .str "Pump", .num 10, .num 5, .num 300⟩,
   ⟨.str "Valve1", .str "Valve", .num 20, .num 7, .num 310⟩]

/-- The spec's worked example as a full table with all required columns. -/
def exTable : RawTable := ⟨requiredColumns, exRows⟩

/-- The summary the pipeline computes for `exRows`. -/
def exSummary : Summary :=
  ⟨2, 15, 6, 305, 10, 20, 5, 7, 300, 310,
    [(.str "Pump", 1), (.str "Valve", 1)]⟩

/-- A row with no missing cell whose `Flowrate` token is not numeric. -/
def badRow : Row := ⟨.str "Mixer1", .str "Mixer", .str "abc", .num 1, .num 2⟩

/-- A table whose single row has an unparseable numeric field. -/
def cxTable : RawTable := ⟨requiredColumns, [badRow]⟩

/-- A table with one clean numeric row followed by `badRow`. -/
def c2Table : RawTable :=
  ⟨requiredColumns,
    [⟨.str "Pump1", .str "Pump", .num 10, .num 5, .num 300⟩, badRow]⟩

/-- A table whose single row has a missing `Equipment Name` cell. -/
def c4Table : RawTable :=
  ⟨requiredColumns, [⟨.null, .str "Pump", .num 1, .num 1, .num 1⟩]⟩

/-- Rows whose type labels appear in discovery order `A`, `B`, `B`. -/
def c9Rows : List Row :=
  [⟨.str "E1", .str "A", .num 1, .num 1, .num 1⟩,
   ⟨.str "E2", .str "B", .num 1, .num 1, .num 1⟩,
   ⟨.str "E3", .str "B", .num 1, .num 1, .num 1⟩]

/-- The summary the pipeline computes for `c9Rows`. -/
def c9Summary : Summary :=
  ⟨3, 1, 1, 1, 1, 1, 1, 1, 1, 1, [(.str "B", 2), (.str "A", 1)]⟩

end ChemViz

namespace ChemViz

/-! Helper lemmas about the embedded operations. -/

theorem count_add_length_filter_ne (v : Value) (vs : List Value) :
    vs.count v + (vs.filter (fun w => !decide (w = v))).length = vs.length := by
  induction vs with
  | nil => simp
  | cons x xs ih =>
      by_cases h : x = v <;>
        simp [h, List.count_cons, List.filter_cons] <;> omega

theorem sum_countsInOrder (l : List Value) :
    ((countsInOrder l).map Prod.snd).sum = l.length := by
  induction l using countsInOrder.induct with
  | case1 => simp [countsInOrder]
  | case2 v vs ih =>
      rw [countsInOrder]
      simp only [decide_not] at ih ⊢
      simp only [List.map_cons, List.sum_cons, ih, List.length_cons]
      have := count_add_length_filter_ne v vs
      omega

theorem mem_countsInOrder {w : Value} {n : Nat} :
    ∀ {l : List Value}, ((w, n) ∈ countsInOrder l ↔ w ∈ l ∧ n = l.count w) := by
  intro l
  induction l using countsInOrder.induct with
  | case1 => simp [countsInOrder]
  | case2 v vs ih =>
      rw [countsInOrder]
      constructor
      · intro hmem
        rcases List.mem_cons.mp hmem with heq | htail
        · obtain ⟨rfl, rfl⟩ := Prod.mk.inj heq
          exact ⟨List.mem_cons_self .., by simp [Nat.add_comm]⟩
        · obtain ⟨hw, hn⟩ := ih.mp htail
          obtain ⟨hwvs, hwne⟩ := List.mem_filter.mp hw
          have hne : w ≠ v := by simpa using hwne
          refine ⟨List.mem_cons_of_mem _ hwvs, ?_⟩
          rw [hn, List.count_filter (by simpa using hne),
            List.count_cons_of_ne hne]
      · rintro ⟨hw, rfl⟩
        rcases List.mem_cons.mp hw with rfl | hwvs
        · exact List.mem_cons.mpr (Or.inl (by simp [Nat.add_comm]))
        · by_cases hvw : w = v
          · subst hvw
            exact List.mem_cons.mpr (Or.inl (by simp [Nat.add_comm]))
          · refine List.mem_cons_of_mem _ (ih.mpr ⟨?_, ?_⟩)
            · exact List.mem_filter.mpr ⟨hwvs, by simpa using hvw⟩
            · rw [List.count_filter (by simpa using hvw),
                List.count_cons_of_ne hvw]

theorem valueCounts_perm (l : List Value) :
    (valueCounts l).Perm (countsInOrder l) :=
  List.perm_insertionSort _ _

theorem valueCounts_sorted (l : List Value) :
    (valueCounts l).Pairwise (fun a b => b.2 ≤ a.2) :=
  List.sorted_insertionSort _ _

theorem sum_valueCounts (l : List Value) :
    ((valueCounts l).map Prod.snd).sum = l.length := by
  have hp := (valueCounts_perm l).map Prod.snd
  rw [hp.sum_eq, sum_countsInOrder]

theorem mem_valueCounts {w : Value} {n : Nat} {l : List Value} :
    (w, n) ∈ valueCounts l ↔ w ∈ l ∧ n = l.count w := by
  rw [(valueCounts_perm l).mem_iff, mem_countsInOrder]

theorem numsOf_length {f : Row → Value} :
    ∀ {rows : List Row} {l : List ℚ},
      numsOf rows f = some l → l.length = rows.length := by
  intro rows
  induction rows with
  | nil => intro l h; simp [numsOf] at h; simp [← h]
  | cons r rs ih =>
      intro l h
      simp only [numsOf, Option.bind_eq_bind, Option.bind_eq_some,
        Option.pure_def, Option.some.injEq] at h
      obtain ⟨q, hq, qs, hqs, rfl⟩ := h
      simp [ih hqs]

theorem numsOf_none_iff {f : Row → Value} {rows : List Row} :
    numsOf rows f = none ↔ ∃ r ∈ rows, (f r).toNum? = none := by
  induction rows with
  | nil => simp [numsOf]
  | cons r rs ih =>
      cases hq : (f r).toNum? with
      | none =>
          simp only [numsOf, Option.bind_eq_bind, hq, Option.none_bind,
            List.mem_cons]
          exact ⟨fun _ => ⟨r, Or.inl rfl, hq⟩, fun _ => trivial⟩
      | some q =>
          simp only [numsOf, Option.bind_eq_bind, hq, Option.some_bind]
          cases hqs : numsOf rs f with
          | none =>
              obtain ⟨r', h1, h2⟩ := ih.mp hqs
              simp only [Option.none_bind]
              exact ⟨fun _ => ⟨r', List.mem_cons_of_mem _ h1, h2⟩,
                fun _ => trivial⟩
          | some qs =>
              simp only [Option.some_bind]
              constructor
              · intro h
                simp [Option.pure_def] at h
              · rintro ⟨r', hr', hnone⟩
                rcases List.mem_cons.mp hr' with rfl | hr'
                · rw [hq] at hnone
                  cases hnone
                · rw [ih.mpr ⟨r', hr', hnone⟩] at hqs
                  cases hqs

theorem foldl_min_le_init (xs : List ℚ) (a : ℚ) : xs.foldl min a ≤ a := by
  induction xs generalizing a with
  | nil => exact le_refl a
  | cons x xs ih =>
      exact le_trans (ih (min a x)) (min_le_left a x)

theorem foldl_min_le_mem {xs : List ℚ} {x : ℚ} (hx : x ∈ xs) (a : ℚ) :
    xs.foldl min a ≤ x := by
  induction xs generalizing a with
  | nil => cases hx
  | cons y ys ih =>
      rcases List.mem_cons.mp hx with rfl | hmem
      · exact le_trans (foldl_min_le_init ys (min a x)) (min_le_right a x)
      · exact ih hmem (min a y)

theorem foldl_min_mem (xs : List ℚ) (a : ℚ) : xs.foldl min a ∈ a :: xs := by
  induction xs generalizing a with
  | nil => exact List.mem_cons_self ..
  | cons x xs ih =>
      have h := ih (min a x)
      rcases min_choice a x with hc | hc <;>
        rcases List.mem_cons.mp h with heq | hmem
      · exact List.mem_cons.mpr (Or.inl (heq.trans hc))
      · exact List.mem_cons_of_mem _ (List.mem_cons_of_mem _ hmem)
      · exact List.mem_cons_of_mem _ (List.mem_cons.mpr (Or.inl (heq.trans hc)))
      · exact List.mem_cons_of_mem _ (List.mem_cons_of_mem _ hmem)

theorem minQ_le_mem {l : List ℚ} {x : ℚ} (hx : x ∈ l) : minQ l ≤ x := by
  cases l with
  | nil => cases hx
  | cons a xs =>
      rcases List.mem_cons.mp hx with rfl | hmem
      · exact foldl_min_le_init xs x
      · exact foldl_min_le_mem hmem a

theorem minQ_mem {l : List ℚ} (hl : l ≠ []) : minQ l ∈ l := by
  cases l with
  | nil => exact absurd rfl hl
  | cons a xs => exact foldl_min_mem xs a

theorem foldl_max_ge_init (xs : List ℚ) (a : ℚ) : a ≤ xs.foldl max a := by
  induction xs generalizing a with
  | nil => exact le_refl a
  | cons x xs ih =>
      exact le_trans (le_max_left a x) (ih (max a x))

theorem foldl_max_ge_mem {xs : List ℚ} {x : ℚ} (hx : x ∈ xs) (a : ℚ) :
    x ≤ xs.foldl max a := by
  induction xs generalizing a with
  | nil => cases hx
  | cons y ys ih =>
      rcases List.mem_cons.mp hx with rfl | hmem
      · exact le_trans (le_max_right a x) (foldl_max_ge_init ys (max a x))
      · exact ih hmem (max a y)

theorem foldl_max_mem (xs : List ℚ) (a : ℚ) : xs.foldl max a ∈ a :: xs := by
  induction xs generalizing a with
  | nil => exact List.mem_cons_self ..
  | cons x xs ih =>
      have h := ih (max a x)
      rcases max_choice a x with hc | hc <;>
        rcases List.mem_cons.mp h with heq | hmem
      · exact List.mem_cons.mpr (Or.inl (heq.trans hc))
      · exact List.mem_cons_of_mem _ (List.mem_cons_of_mem _ hmem)
      · exact List.mem_cons_of_mem _ (List.mem_cons.mpr (Or.inl (heq.trans hc)))
      · exact List.mem_cons_of_mem _ (List.mem_cons_of_mem _ hmem)

theorem le_maxQ_mem {l : List ℚ} {x : ℚ} (hx : x ∈ l) : x ≤ maxQ l := by
  cases l with
  | nil => cases hx
  | cons a xs =>
      rcases List.mem_cons.mp hx with rfl | hmem
      · exact foldl_max_ge_init xs x
      · exact foldl_max_ge_mem hmem a

theorem maxQ_mem {l : List ℚ} (hl : l ≠ []) : maxQ l ∈ l := by
  cases l with
  | nil => exact absurd rfl hl
  | cons a xs => exact foldl_max_mem xs a

theorem mul_length_le_sum {l : List ℚ} {m : ℚ} (h : ∀ x ∈ l, m ≤ x) :
    m * l.length ≤ l.sum := by
  induction l with
  | nil => simp
  | cons x xs ih =>
      have hx := h x (List.mem_cons_self ..)
      have hxs := ih (fun y hy => h y (List.mem_cons_of_mem _ hy))
      simp only [List.sum_cons, List.length_cons]
      push_cast
      nlinarith

theorem sum_le_mul_length {l : List ℚ} {m : ℚ} (h : ∀ x ∈ l, x ≤ m) :
    l.sum ≤ m * l.length := by
  induction l with
  | nil => simp
  | cons x xs ih =>
      have hx := h x (List.mem_cons_self ..)
      have hxs := ih (fun y hy => h y (List.mem_cons_of_mem _ hy))
      simp only [List.sum_cons, List.length_cons]
      push_cast
      nlinarith

theorem minQ_le_meanQ {l : List ℚ} (hl : l ≠ []) : minQ l ≤ meanQ l := by
  have hlen : (0 : ℚ) < l.length := by
    have := List.length_pos.mpr hl
    exact_mod_cast this
  rw [meanQ, le_div_iff₀ hlen]
  exact mul_length_le_sum (fun x hx => minQ_le_mem hx)

theorem meanQ_le_maxQ {l : List ℚ} (hl : l ≠ []) : meanQ l ≤ maxQ l := by
  have hlen : (0 : ℚ) < l.length := by
    have := List.length_pos.mpr hl
    exact_mod_cast this
  rw [meanQ, div_le_iff₀ hlen]
  exact sum_le_mul_length (fun x hx => le_maxQ_mem hx)

theorem computeSummary_eq {rows : List Row} {s : Summary}
    (h : computeSummary rows = some s) :
    ∃ fl pr te, numsOf rows Row.flowrate = some fl ∧
      numsOf rows Row.pressure = some pr ∧
      numsOf rows Row.temperature = some te ∧
      s = { count := rows.length
            avgFlowrate := meanQ fl, avgPressure := meanQ pr
            avgTemperature := meanQ te
            minFlowrate := minQ fl, maxFlowrate := maxQ fl
            minPressure := minQ pr, maxPressure := maxQ pr
            minTemperature := minQ te, maxTemperature := maxQ te
            typeDistribution := valueCounts (rows.map Row.type) } := by
  simp only [computeSummary, Option.bind_eq_bind, Option.bind_eq_some,
    Option.pure_def, Option.some.injEq] at h
  obtain ⟨fl, hfl, pr, hpr, te, hte, hs⟩ := h
  exact ⟨fl, pr, te, hfl, hpr, hte, hs.symm⟩

theorem mkRecords_of_numsOf :
    ∀ {rows : List Row} {fl pr te : List ℚ},
      numsOf rows Row.flowrate = some fl →
      numsOf rows Row.pressure = some pr →
      numsOf rows Row.temperature = some te →
      ∃ recs, mkRecords rows = some recs ∧ recs.length = rows.length := by
  intro rows
  induction rows with
  | nil => exact fun _ _ _ => ⟨[], rfl, rfl⟩
  | cons r rs ih =>
      intro fl pr te hf hp ht
      simp only [numsOf, Option.bind_eq_bind, Option.bind_eq_some,
        Option.pure_def, Option.some.injEq] at hf hp ht
      obtain ⟨qf, hqf, qsf, hqsf, rfl⟩ := hf
      obtain ⟨qp, hqp, qsp, hqsp, rfl⟩ := hp
      obtain ⟨qt, hqt, qst, hqst, rfl⟩ := ht
      obtain ⟨recs, hrecs, hlen⟩ := ih hqsf hqsp hqst
      refine ⟨⟨r.name, r.type, qf, qp, qt⟩ :: recs, ?_, by simp [hlen]⟩
      simp [mkRecords, hqf, hqp, hqt, hrecs]

theorem isSome_false_eq_none {a : Type} {o : Option a}
    (h : o.isSome = false) : o = none := by
  cases o with
  | none => rfl
  | some v => cases h

theorem computeSummary_eq_none {rows : List Row}
    (h : ∃ r ∈ rows, r.numericOk = false) : computeSummary rows = none := by
  obtain ⟨r, hr, hbad⟩ := h
  simp only [Row.numericOk, Bool.and_eq_false_iff] at hbad
  rcases hbad with (hf | hp) | ht
  · have : numsOf rows Row.flowrate = none :=
      numsOf_none_iff.mpr ⟨r, hr, isSome_false_eq_none hf⟩
    simp [computeSummary, this]
  · have hpn : numsOf rows Row.pressure = none :=
      numsOf_none_iff.mpr ⟨r, hr, isSome_false_eq_none hp⟩
    cases hfl : numsOf rows Row.flowrate <;> simp [computeSummary, hfl, hpn]
  · have htn : numsOf rows Row.temperature = none :=
      numsOf_none_iff.mpr ⟨r, hr, isSome_false_eq_none ht⟩
    cases hfl : numsOf rows Row.flowrate <;>
      cases hpr : numsOf rows Row.pressure <;>
        simp [computeSummary, hfl, hpr, htn]

theorem computeSummary_isSome {rows : List Row}
    (hok : ∀ r ∈ rows, r.numericOk = true) :
    ∃ s, computeSummary rows = some s := by
  have hsome : ∀ (f : Row → Value), (∀ r ∈ rows, ((f r).toNum?).isSome) →
      ∃ l, numsOf rows f = some l := by
    intro f hf
    cases hn : numsOf rows f with
    | none =>
        obtain ⟨r, hr, hnone⟩ := numsOf_none_iff.mp hn
        have := hf r hr
        rw [hnone] at this
        cases this
    | some l => exact ⟨l, rfl⟩
  obtain ⟨fl, hfl⟩ := hsome Row.flowrate (fun r hr => by
    have := hok r hr
    simp only [Row.numericOk, Bool.and_eq_true] at this
    exact this.1.1)
  obtain ⟨pr, hpr⟩ := hsome Row.pressure (fun r hr => by
    have := hok r hr
    simp only [Row.numericOk, Bool.and_eq_true] at this
    exact this.1.2)
  obtain ⟨te, hte⟩ := hsome Row.temperature (fun r hr => by
    have := hok r hr
    simp only [Row.numericOk, Bool.and_eq_true] at this
    exact this.2)
  cases hd : computeSummary rows with
  | none =>
      rw [computeSummary] at hd
      simp [hfl, hpr, hte] at hd
  | some s => exact ⟨s, rfl⟩

theorem zip_map_fst_snd (l : List (Value × Nat)) :
    (l.map Prod.fst).zip (l.map Prod.snd) = l := by
  induction l with
  | nil => rfl
  | cons x xs ih => simp [ih]

theorem insertN_eq (N : Nat) :
    insertN RStore.empty N = ⟨N, (List.range N).reverse.take MAX_HISTORY⟩ := by
  induction N with
  | zero => rfl
  | succ n ih =>
      simp [insertN, ih, RStore.insert, MAX_HISTORY, List.range_succ,
        List.take_succ_cons, List.take_take]

theorem mem_take_reverse_range {N k x : Nat}
    (hx : x ∈ ((List.range N).reverse).take k) : N - k ≤ x := by
  obtain ⟨j, hj, hEq⟩ := List.getElem_of_mem hx
  have hjk : j < k := lt_of_lt_of_le hj (by simp [List.length_take])
  have hjN : j < N := by
    have := hj
    simp [List.length_take] at this
    omega
  rw [List.getElem_take] at hEq
  rw [List.getElem_reverse] at hEq
  simp only [List.getElem_range, List.length_range] at hEq
  omega

theorem computeSummary_exRows : computeSummary exRows = some exSummary := by
  norm_num +decide [computeSummary, numsOf, Value.toNum?, meanQ, minQ, maxQ,
    valueCounts, countsInOrder, List.insertionSort, List.orderedInsert,
    exRows, exSummary, List.count_cons, List.count_nil, List.filter_cons,
    List.filter_nil]

theorem computeSummary_c9Rows : computeSummary c9Rows = some c9Summary := by
  norm_num +decide [computeSummary, numsOf, Value.toNum?, meanQ, minQ, maxQ,
    valueCounts, countsInOrder, List.insertionSort, List.orderedInsert,
    c9Rows, c9Summary, List.count_cons, List.count_nil, List.filter_cons,
    List.filter_nil]

theorem countsInOrder_c9Rows :
    countsInOrder (c9Rows.map Row.type) = [(.str "A", 1), (.str "B", 2)] := by
  norm_num +decide [countsInOrder, c9Rows, List.count_cons, List.count_nil,
    List.filter_cons, List.filter_nil]

end ChemViz

namespace ChemViz

/-! Claim theorems. -/

/-- C1: for every owner scope, after any sequence of `N` sequential inserts
with `N > MAX_HISTORY`, `list()` returns exactly `MAX_HISTORY` datasets
ordered newest-first (strictly descending insertion ids, the ids of the
`MAX_HISTORY` most recent inserts), the history length is at most
`MAX_HISTORY` after any insert completes, and every evicted oldest-inserted
dataset is unreachable via `get()`, which answers `NotFoundError`. -/
theorem c1_retention_bounded_history (N : Nat) (h : MAX_HISTORY < N) :
    ((insertN RStore.empty N).list).length = MAX_HISTORY ∧
    (insertN RStore.empty N).list =
      ((List.range N).reverse).take MAX_HISTORY ∧
    ((insertN RStore.empty N).list).Pairwise (· > ·) ∧
    (∀ st : RStore, st.insert.history.length ≤ MAX_HISTORY) ∧
    (∀ k, ((insertN RStore.empty k).history).length ≤ MAX_HISTORY) ∧
    (∀ i, i + MAX_HISTORY < N →
      (insertN RStore.empty N).get i = .error .notFound) := by
  refine ⟨?_, ?_, ?_, ?_, ?_, ?_⟩
  · simp [insertN_eq, RStore.list, List.take_take, List.length_take]
    omega
  · simp [insertN_eq, RStore.list, List.take_take]
  · simp only [insertN_eq, RStore.list, List.take_take, Nat.min_self]
    exact ((List.pairwise_reverse.mpr
      ((List.pairwise_lt_range N).imp (fun hab => hab))).take)
  · intro st
    simp only [RStore.insert, List.length_take, List.length_cons]
    exact Nat.min_le_left _ _
  · intro k
    simp [insertN_eq, List.length_take]
  · intro i hi
    have hnm : i ∉ (List.range N).reverse.take MAX_HISTORY := by
      intro hc
      have := mem_take_reverse_range hc
      omega
    simp [insertN_eq, RStore.get, hnm]

/-- Witness for C1 at `N = 7`. -/
theorem c1_retention_bounded_history_witness :
    ((insertN RStore.empty 7).list).length = MAX_HISTORY ∧
    (insertN RStore.empty 7).list =
      ((List.range 7).reverse).take MAX_HISTORY ∧
    ((insertN RStore.empty 7).list).Pairwise (· > ·) ∧
    (∀ st : RStore, st.insert.history.length ≤ MAX_HISTORY) ∧
    (∀ k, ((insertN RStore.empty k).history).length ≤ MAX_HISTORY) ∧
    (∀ i, i + MAX_HISTORY < 7 →
      (insertN RStore.empty 7).get i = .error .notFound) :=
  c1_retention_bounded_history 7 (by decide)

/-- C2 counterexample: the claim says a row whose numeric field cannot be
parsed is dropped and that dropping is never fatal; on a concrete two-row
table whose second row has the unparseable `Flowrate` token `"abc"` (and no
missing field), the upload instead fails whole with the generic processing
error, so no Dataset with `recordCount = 1` is produced. -/
theorem c2_row_cleaning_cex :
    (badRow.hasNull = false ∧ badRow.flowrate.toNum? = none) ∧
    (upload "data.csv" c2Table []).1 = .error .processingError := by
  decide

/-- C2 amended: rows are dropped exactly when a required field is
missing/null, and on success `recordCount` equals the surviving-row count;
but a surviving row whose numeric field is unparseable is not dropped — it
makes the whole upload fail with the generic processing error. -/
theorem c2_row_cleaning_amended (fn : String) (t : RawTable)
    (s : List Dataset) (hcsv : endsWithCsv fn = true)
    (hcols : missingColumns t = [])
    (hne : dropna t.rows ≠ []) :
    ((∀ r ∈ dropna t.rows, r.numericOk = true) →
       ∃ d, (upload fn t s).1 = .ok d ∧
         d.totalRecords = (t.rows.filter (fun r => !r.hasNull)).length ∧
         d.records.length = (t.rows.filter (fun r => !r.hasNull)).length) ∧
    ((∃ r ∈ dropna t.rows, r.numericOk = false) →
       (upload fn t s).1 = .error .processingError) := by
  have hlen : ¬ ((dropna t.rows).length = 0) := by
    simpa [List.length_eq_zero] using hne
  constructor
  · intro hok
    obtain ⟨sum, hsum⟩ := computeSummary_isSome hok
    obtain ⟨fl, pr, te, hfl, hpr, hte, _⟩ := computeSummary_eq hsum
    obtain ⟨recs, hrecs, hreclen⟩ := mkRecords_of_numsOf hfl hpr hte
    refine ⟨{ strandedDataset fn t with
        summary := some sum, records := recs }, ?_, ?_, ?_⟩
    · simp [upload, hcsv, hcols, hlen, hsum, hrecs]
    · simp [upload, hcsv, hcols, hlen, hsum, hrecs, strandedDataset, dropna]
    · simp [upload, hcsv, hcols, hlen, hsum, hrecs, hreclen, dropna]
  · intro hbad
    have hnone := computeSummary_eq_none hbad
    simp [upload, hcsv, hcols, hlen, hnone]

/-- Witness for C2 amended on the spec's two-row example table. -/
theorem c2_row_cleaning_amended_witness :
    ((∀ r ∈ dropna exTable.rows, r.numericOk = true) →
       ∃ d, (upload "data.csv" exTable []).1 = .ok d ∧
         d.totalRecords =
           (exTable.rows.filter (fun r => !r.hasNull)).length ∧
         d.records.length =
           (exTable.rows.filter (fun r => !r.hasNull)).length) ∧
    ((∃ r ∈ dropna exTable.rows, r.numericOk = false) →
       (upload "data.csv" exTable []).1 = .error .processingError) :=
  c2_row_cleaning_amended "data.csv" exTable [] (by decide) (by decide)
    (by decide)

/-- C3: whenever any subset of the required columns is absent, the upload
fails with the missing-column error listing exactly all of the absent
required columns (membership characterised against `requiredColumns` and
the table's columns), and the store is unchanged. -/
theorem c3_schema_error_all_missing (fn : String) (t : RawTable)
    (s : List Dataset) (hcsv : endsWithCsv fn = true)
    (hmiss : ∃ c ∈ requiredColumns, c ∉ t.columns) :
    (upload fn t s).1 = .error (.missingCols (missingColumns t)) ∧
    (∀ c, c ∈ missingColumns t ↔ c ∈ requiredColumns ∧ c ∉ t.columns) ∧
    (upload fn t s).2 = s := by
  have hchar : ∀ c, c ∈ missingColumns t ↔
      c ∈ requiredColumns ∧ c ∉ t.columns := by
    intro c
    simp [missingColumns, List.mem_filter]
  have hne : missingColumns t ≠ [] := by
    obtain ⟨c, hc1, hc2⟩ := hmiss
    intro h0
    have := (hchar c).mpr ⟨hc1, hc2⟩
    rw [h0] at this
    cases this
  refine ⟨?_, hchar, ?_⟩ <;> simp [upload, hcsv, hne]

/-- Witness for C3 on a table which only has the `Type` and `Flowrate`
columns. -/
theorem c3_schema_error_all_missing_witness :
    (upload "data.csv" ⟨["Type", "Flowrate"], []⟩ []).1 =
      .error (.missingCols (missingColumns ⟨["Type", "Flowrate"], []⟩)) ∧
    (∀ c, c ∈ missingColumns ⟨["Type", "Flowrate"], []⟩ ↔
      c ∈ requiredColumns ∧
        c ∉ (⟨["Type", "Flowrate"], []⟩ : RawTable).columns) ∧
    (upload "data.csv" ⟨["Type", "Flowrate"], []⟩ []).2 = [] :=
  c3_schema_error_all_missing "data.csv" ⟨["Type", "Flowrate"], []⟩ []
    (by decide) (by decide)

/-- C4 counterexample: the claim counts a row with an unparseable numeric
field as cleaned away and predicts `EmptyResultError`; on the concrete
one-row table whose row has `Flowrate = "abc"` and no missing field the
upload fails with the generic processing error instead, not the
no-valid-data error. -/
theorem c4_empty_result_cex :
    (badRow.hasNull = false ∧ badRow.flowrate.toNum? = none) ∧
    (upload "data.csv" cxTable []).1 = .error .processingError ∧
    UploadError.processingError ≠ UploadError.noValidData := by
  decide

/-- C4 amended: when every row has a missing/null required field — the only
rows `dropna` removes — zero rows survive cleaning and the upload fails with
the no-valid-data error, leaving the store unchanged; that error is a
different constructor from every schema (missing-columns) error. -/
theorem c4_empty_result_amended (fn : String) (t : RawTable)
    (s : List Dataset) (hcsv : endsWithCsv fn = true)
    (hcols : missingColumns t = [])
    (hall : ∀ r ∈ t.rows, r.hasNull = true) :
    (upload fn t s).1 = .error .noValidData ∧
    (upload fn t s).2 = s ∧
    ∀ cols, (UploadError.noValidData ≠ UploadError.missingCols cols) := by
  have hclean : dropna t.rows = [] := by
    rw [dropna, List.filter_eq_nil_iff]
    intro r hr
    simp [hall r hr]
  refine ⟨?_, ?_, fun cols h => by cases h⟩ <;>
    simp [upload, hcsv, hcols, hclean]

/-- Witness for C4 amended on a table whose single row misses its
`Equipment Name` cell. -/
theorem c4_empty_result_amended_witness :
    (upload "data.csv" c4Table []).1 = .error .noValidData ∧
    (upload "data.csv" c4Table []).2 = [] ∧
    ∀ cols, (UploadError.noValidData ≠ UploadError.missingCols cols) :=
  c4_empty_result_amended "data.csv" c4Table [] (by decide) (by decide)
    (by decide)

end ChemViz

namespace ChemViz

/-- C5 counterexample: on the concrete one-row table whose `Flowrate` token
is unparseable, the upload fails after `Dataset.objects.create` has already
committed, so the store — empty before the request — afterwards holds a
partially created Dataset with no summary and no equipment records. -/
theorem c5_atomicity_cex :
    (upload "data.csv" cxTable []).1 = .error .processingError ∧
    (upload "data.csv" cxTable []).2 = [strandedDataset "data.csv" cxTable] ∧
    (strandedDataset "data.csv" cxTable).summary = none ∧
    (strandedDataset "data.csv" cxTable).records = [] ∧
    [strandedDataset "data.csv" cxTable] ≠ ([] : List Dataset) := by
  decide

/-- C5 amended: failures raised before `Dataset.objects.create` (non-CSV
filename, missing columns, no row surviving cleaning) leave the history
exactly as it was; but a failure during summary computation happens after
the Dataset row is committed, and then the history gains exactly one
partially created Dataset carrying neither summary nor equipment records. -/
theorem c5_atomicity_amended (fn : String) (t : RawTable) (s : List Dataset)
    (e : UploadError) (he : (upload fn t s).1 = .error e) :
    (e ≠ .processingError → (upload fn t s).2 = s) ∧
    (e = .processingError →
      (upload fn t s).2 = strandedDataset fn t :: s ∧
      (strandedDataset fn t).summary = none ∧
      (strandedDataset fn t).records = []) := by
  by_cases h1 : endsWithCsv fn = true
  · by_cases h2 : missingColumns t = []
    · by_cases h3 : (dropna t.rows).length = 0
      · have hu : upload fn t s = (.error .noValidData, s) := by
          simp [upload, h1, h2, h3]
        rw [hu] at he ⊢
        cases he
        exact ⟨fun _ => rfl, fun h => by cases h⟩
      · cases hcs : computeSummary (dropna t.rows) with
        | none =>
            have hu : upload fn t s =
                (.error .processingError, strandedDataset fn t :: s) := by
              simp [upload, h1, h2, h3, hcs]
            rw [hu] at he ⊢
            cases he
            exact ⟨fun h => absurd rfl h, fun _ => ⟨rfl, rfl, rfl⟩⟩
        | some sum =>
            obtain ⟨fl, pr, te, hfl, hpr, hte, _⟩ := computeSummary_eq hcs
            obtain ⟨recs, hrecs, _⟩ := mkRecords_of_numsOf hfl hpr hte
            have hu : (upload fn t s).1 = .ok
                { strandedDataset fn t with
                    summary := some sum, records := recs } := by
              simp [upload, h1, h2, h3, hcs, hrecs]
            rw [hu] at he
            cases he
    · have hne2 : missingColumns t ≠ [] := h2
      have hu : upload fn t s =
          (.error (.missingCols (missingColumns t)), s) := by
        simp [upload, h1, hne2]
      rw [hu] at he ⊢
      cases he
      exact ⟨fun _ => rfl, fun h => by cases h⟩
  · have h1f : endsWithCsv fn = false := by
      exact Bool.not_eq_true _ ▸ (by simpa using h1)
    have hu : upload fn t s = (.error .notCsv, s) := by
      simp [upload, h1f]
    rw [hu] at he ⊢
    cases he
    exact ⟨fun _ => rfl, fun h => by cases h⟩

/-- Witness for C5 amended on the processing-error path. -/
theorem c5_atomicity_amended_witness :
    (UploadError.processingError ≠ UploadError.processingError →
      (upload "data.csv" cxTable []).2 = []) ∧
    (UploadError.processingError = UploadError.processingError →
      (upload "data.csv" cxTable []).2 =
        strandedDataset "data.csv" cxTable :: [] ∧
      (strandedDataset "data.csv" cxTable).summary = none ∧
      (strandedDataset "data.csv" cxTable).records = []) :=
  c5_atomicity_amended "data.csv" cxTable [] .processingError (by decide)

/-- C6: for every cleaned row set whose summary is computed, the values of
`typeDistribution` sum to `count`, and `count` is the number of cleaned
rows. -/
theorem c6_type_distribution_sum (rows : List Row) (s : Summary)
    (h : computeSummary rows = some s) :
    ((s.typeDistribution.map Prod.snd).sum = s.count ∧
      s.count = rows.length) := by
  obtain ⟨fl, pr, te, _, _, _, rfl⟩ := computeSummary_eq h
  refine ⟨?_, rfl⟩
  simpa using sum_valueCounts (rows.map Row.type)

/-- Witness for C6 on the spec's two-row example. -/
theorem c6_type_distribution_sum_witness :
    ((exSummary.typeDistribution.map Prod.snd).sum = exSummary.count ∧
      exSummary.count = exRows.length) :=
  c6_type_distribution_sum exRows exSummary computeSummary_exRows

/-- C7: for every non-empty cleaned row set whose summary is computed,
`min ≤ avg ≤ max` holds independently for flowrate, pressure, and
temperature. -/
theorem c7_min_avg_max (rows : List Row) (s : Summary)
    (h : computeSummary rows = some s) (hpos : 0 < s.count) :
    (s.minFlowrate ≤ s.avgFlowrate ∧ s.avgFlowrate ≤ s.maxFlowrate) ∧
    (s.minPressure ≤ s.avgPressure ∧ s.avgPressure ≤ s.maxPressure) ∧
    (s.minTemperature ≤ s.avgTemperature ∧
      s.avgTemperature ≤ s.maxTemperature) := by
  obtain ⟨fl, pr, te, hfl, hpr, hte, rfl⟩ := computeSummary_eq h
  have hrows : rows ≠ [] := by
    intro h0
    subst h0
    simp at hpos
  have hne : ∀ {l : List ℚ} {f : Row → Value},
      numsOf rows f = some l → l ≠ [] := by
    intro l f hl h0
    have hlen := numsOf_length hl
    rw [h0] at hlen
    exact hrows (List.length_eq_zero.mp hlen.symm)
  exact ⟨⟨minQ_le_meanQ (hne hfl), meanQ_le_maxQ (hne hfl)⟩,
    ⟨minQ_le_meanQ (hne hpr), meanQ_le_maxQ (hne hpr)⟩,
    ⟨minQ_le_meanQ (hne hte), meanQ_le_maxQ (hne hte)⟩⟩

/-- Witness for C7 on the spec's two-row example. -/
theorem c7_min_avg_max_witness :
    (exSummary.minFlowrate ≤ exSummary.avgFlowrate ∧
      exSummary.avgFlowrate ≤ exSummary.maxFlowrate) ∧
    (exSummary.minPressure ≤ exSummary.avgPressure ∧
      exSummary.avgPressure ≤ exSummary.maxPressure) ∧
    (exSummary.minTemperature ≤ exSummary.avgTemperature ∧
      exSummary.avgTemperature ≤ exSummary.maxTemperature) :=
  c7_min_avg_max exRows exSummary computeSummary_exRows (by decide)

/-- C8: the computed summary has `count` equal to the number of rows; for
each of the flowrate, pressure and temperature columns the average equals
the column's sum divided by its length and the minimum/maximum is a
least/greatest element of that column; `typeDistribution` counts
occurrences per distinct type label; and on the spec's two-row example this
yields `count = 2`, `avgFlowrate = 15`, `minFlowrate = 10`,
`maxFlowrate = 20`, and type distribution `Pump ↦ 1`, `Valve ↦ 1`. -/
theorem c8_summarize_spec :
    (∀ (rows : List Row) (s : Summary) (fl pr te : List ℚ),
      computeSummary rows = some s →
      numsOf rows Row.flowrate = some fl →
      numsOf rows Row.pressure = some pr →
      numsOf rows Row.temperature = some te →
      s.count = rows.length ∧
      (s.avgFlowrate = fl.sum / fl.length ∧
        s.avgPressure = pr.sum / pr.length ∧
        s.avgTemperature = te.sum / te.length) ∧
      (fl ≠ [] →
        (s.minFlowrate ∈ fl ∧ ∀ x ∈ fl, s.minFlowrate ≤ x) ∧
        (s.maxFlowrate ∈ fl ∧ ∀ x ∈ fl, x ≤ s.maxFlowrate)) ∧
      (pr ≠ [] →
        (s.minPressure ∈ pr ∧ ∀ x ∈ pr, s.minPressure ≤ x) ∧
        (s.maxPressure ∈ pr ∧ ∀ x ∈ pr, x ≤ s.maxPressure)) ∧
      (te ≠ [] →
        (s.minTemperature ∈ te ∧ ∀ x ∈ te, s.minTemperature ≤ x) ∧
        (s.maxTemperature ∈ te ∧ ∀ x ∈ te, x ≤ s.maxTemperature)) ∧
      (∀ w n, (w, n) ∈ s.typeDistribution ↔
        (w ∈ rows.map Row.type ∧ n = (rows.map Row.type).count w))) ∧
    computeSummary exRows = some exSummary ∧
    exSummary.count = 2 ∧ exSummary.avgFlowrate = 15 ∧
    exSummary.minFlowrate = 10 ∧ exSummary.maxFlowrate = 20 ∧
    exSummary.typeDistribution = [(.str "Pump", 1), (.str "Valve", 1)] := by
  refine ⟨?_, computeSummary_exRows, rfl, rfl, rfl, rfl, rfl⟩
  intro rows s fl pr te h hfl hpr hte
  obtain ⟨fl', pr', te', hfl', hpr', hte', rfl⟩ := computeSummary_eq h
  rw [hfl'] at hfl
  rw [hpr'] at hpr
  rw [hte'] at hte
  obtain rfl := Option.some.inj hfl
  obtain rfl := Option.some.inj hpr
  obtain rfl := Option.some.inj hte
  refine ⟨rfl, ⟨rfl, rfl, rfl⟩, ?_, ?_, ?_, ?_⟩
  · intro hne
    exact ⟨⟨minQ_mem hne, fun x hx => minQ_le_mem hx⟩,
      ⟨maxQ_mem hne, fun x hx => le_maxQ_mem hx⟩⟩
  · intro hne
    exact ⟨⟨minQ_mem hne, fun x hx => minQ_le_mem hx⟩,
      ⟨maxQ_mem hne, fun x hx => le_maxQ_mem hx⟩⟩
  · intro hne
    exact ⟨⟨minQ_mem hne, fun x hx => minQ_le_mem hx⟩,
      ⟨maxQ_mem hne, fun x hx => le_maxQ_mem hx⟩⟩
  · intro w n
    exact mem_valueCounts

/-- Witness for C8: the general part applied to the spec's two-row example
and its flowrate `[10, 20]`, pressure `[5, 7]` and temperature `[300, 310]`
columns. -/
theorem c8_summarize_spec_witness :
    exSummary.count = exRows.length ∧
    (exSummary.avgFlowrate =
        ([10, 20] : List ℚ).sum / ([10, 20] : List ℚ).length ∧
      exSummary.avgPressure =
        ([5, 7] : List ℚ).sum / ([5, 7] : List ℚ).length ∧
      exSummary.avgTemperature =
        ([300, 310] : List ℚ).sum / ([300, 310] : List ℚ).length) ∧
    (([10, 20] : List ℚ) ≠ [] →
      (exSummary.minFlowrate ∈ ([10, 20] : List ℚ) ∧
        ∀ x ∈ ([10, 20] : List ℚ), exSummary.minFlowrate ≤ x) ∧
      (exSummary.maxFlowrate ∈ ([10, 20] : List ℚ) ∧
        ∀ x ∈ ([10, 20] : List ℚ), x ≤ exSummary.maxFlowrate)) ∧
    (([5, 7] : List ℚ) ≠ [] →
      (exSummary.minPressure ∈ ([5, 7] : List ℚ) ∧
        ∀ x ∈ ([5, 7] : List ℚ), exSummary.minPressure ≤ x) ∧
      (exSummary.maxPressure ∈ ([5, 7] : List ℚ) ∧
        ∀ x ∈ ([5, 7] : List ℚ), x ≤ exSummary.maxPressure)) ∧
    (([300, 310] : List ℚ) ≠ [] →
      (exSummary.minTemperature ∈ ([300, 310] : List ℚ) ∧
        ∀ x ∈ ([300, 310] : List ℚ), exSummary.minTemperature ≤ x) ∧
      (exSummary.maxTemperature ∈ ([300, 310] : List ℚ) ∧
        ∀ x ∈ ([300, 310] : List ℚ), x ≤ exSummary.maxTemperature)) ∧
    (∀ w n, (w, n) ∈ exSummary.typeDistribution ↔
      (w ∈ exRows.map Row.type ∧ n = (exRows.map Row.type).count w)) :=
  c8_summarize_spec.1 exRows exSummary [10, 20] [5, 7] [300, 310]
    computeSummary_exRows (by decide) (by decide) (by decide)

/-- C9 counterexample: on rows whose type labels appear in discovery order
`A`, `B`, `B`, the assembled type series is `[(B, 2), (A, 1)]` — ordered by
frequency, not the discovery order `[(A, 1), (B, 2)]`. -/
theorem c9_type_series_cex :
    computeSummary c9Rows = some c9Summary ∧
    pdfTypeSeries c9Summary = [(.str "B", 2), (.str "A", 1)] ∧
    countsInOrder (c9Rows.map Row.type) = [(.str "A", 1), (.str "B", 2)] ∧
    pdfTypeSeries c9Summary ≠ countsInOrder (c9Rows.map Row.type) := by
  refine ⟨computeSummary_c9Rows, by decide, countsInOrder_c9Rows, ?_⟩
  rw [countsInOrder_c9Rows]
  decide

/-- C9 amended: the report's type series re-exposes `typeDistribution` as
(label, count) pairs unchanged, but its order is count-descending (the
`value_counts` order, ties keeping first-seen order) — a permutation of the
discovery-order distribution, not the discovery order itself. -/
theorem c9_type_series_amended (rows : List Row) (s : Summary)
    (h : computeSummary rows = some s) :
    pdfTypeSeries s = s.typeDistribution ∧
    (pdfTypeSeries s).Pairwise (fun a b => b.2 ≤ a.2) ∧
    (pdfTypeSeries s).Perm (countsInOrder (rows.map Row.type)) := by
  obtain ⟨fl, pr, te, _, _, _, rfl⟩ := computeSummary_eq h
  have hz := zip_map_fst_snd (valueCounts (rows.map Row.type))
  refine ⟨hz, ?_, ?_⟩
  · rw [pdfTypeSeries]
    simp only [hz]
    exact valueCounts_sorted _
  · rw [pdfTypeSeries]
    simp only [hz]
    exact valueCounts_perm _

/-- Witness for C9 amended on the `A`, `B`, `B` rows. -/
theorem c9_type_series_amended_witness :
    pdfTypeSeries c9Summary = c9Summary.typeDistribution ∧
    (pdfTypeSeries c9Summary).Pairwise (fun a b => b.2 ≤ a.2) ∧
    (pdfTypeSeries c9Summary).Perm (countsInOrder (c9Rows.map Row.type)) :=
  c9_type_series_amended c9Rows c9Summary computeSummary_c9Rows

/-- C10: every upload whose filename does not end in `.csv` is rejected with
the not-CSV error before the table is inspected — for any table, even a
well-formed one — and the store is unchanged. -/
theorem c10_csv_extension_gate (fn : String) (t : RawTable)
    (s : List Dataset) (h : endsWithCsv fn = false) :
    upload fn t s = (.error .notCsv, s) := by
  simp [upload, h]

/-- Witness for C10: a well-formed table offered as `data.txt` is rejected
and the empty store stays empty. -/
theorem c10_csv_extension_gate_witness :
    upload "data.txt" exTable [] = (.error .notCsv, []) :=
  c10_csv_extension_gate "data.txt" exTable [] (by decide)

end ChemViz
